import Mathlib

/-!
Verification of the fbtftp TFTP server core against its specification.

The development shallowly embeds the Python sources:
  - fbtftp/constants.py    : opcodes, error codes, block size constants
  - fbtftp/netascii.py     : NetasciiReader (streaming netascii encoder)
  - fbtftp/base_handler.py : BaseHandler (per-session read state machine)
  - fbtftp/base_server.py  : BaseServer.on_new_data (RRQ dispatcher)

Bytes are modelled as natural numbers (all values produced stay below 256)
and byte strings as lists of naturals.  Stateful methods become pure
functions from a state record to a new state record paired with the list
of datagrams sent, each datagram tagged with its destination address.
-/

namespace Fbtftp

/-! Constants from fbtftp/constants.py. -/

def OPCODE_RRQ : Nat := 1
def OPCODE_WRQ : Nat := 2
def OPCODE_DATA : Nat := 3
def OPCODE_ACK : Nat := 4
def OPCODE_ERROR : Nat := 5
def OPCODE_OACK : Nat := 6

def ERR_UNDEFINED : Nat := 0
def ERR_FILE_NOT_FOUND : Nat := 1
def ERR_ILLEGAL_OPERATION : Nat := 4

def MAX_BLOCK_NUMBER : Nat := 65535
def DEFAULT_BLKSIZE : Nat := 512

/-! Wire encoding helpers. -/

/-- Big-endian 16-bit encoding, as produced by struct.pack with format !H
on an in-range argument. -/
def u16 (n : Nat) : List Nat := [n / 256 % 256, n % 256]

/-- latin-1 encoding of a string: one byte per character, the code point
itself.  All strings the engine builds are ASCII. -/
def strBytes (s : String) : List Nat := s.data.map Char.toNat

/-! The netascii encoder, from fbtftp/netascii.py. -/

/-- The substitution performed on one input byte by the loop body of
NetasciiReader.read: LF becomes CR LF, a bare CR becomes CR NUL, any
other byte is passed through. -/
def encodeChar (c : Nat) : List Nat :=
  if c = 10 then [13, 10] else if c = 13 then [13, 0] else [c]

/-- Netascii encoding of a whole byte string: the per-byte substitution of
NetasciiReader.read applied to every byte in order. -/
def netasciiEncode : List Nat → List Nat
  | [] => []
  | c :: rest => encodeChar c ++ netasciiEncode rest

/-- Netascii decoding, written from the words of the specification: CR LF
decodes to LF and CR NUL decodes to CR; everything else passes through. -/
def netasciiDecode : List Nat → List Nat
  | [] => []
  | [c] => [c]
  | c :: d :: rest =>
      if c = 13 ∧ d = 10 then 10 :: netasciiDecode rest
      else if c = 13 ∧ d = 0 then 13 :: netasciiDecode rest
      else c :: netasciiDecode (d :: rest)

theorem netasciiEncode_append (a b : List Nat) :
    netasciiEncode (a ++ b) = netasciiEncode a ++ netasciiEncode b := by
  induction a with
  | nil => rfl
  | cons c t ih => simp [netasciiEncode, ih]

theorem one_le_encodeChar_length (c : Nat) : 1 ≤ (encodeChar c).length := by
  by_cases h10 : c = 10 <;> by_cases h13 : c = 13 <;> simp [encodeChar, h10, h13]

theorem encodeChar_length_le_two (c : Nat) : (encodeChar c).length ≤ 2 := by
  by_cases h10 : c = 10 <;> by_cases h13 : c = 13 <;> simp [encodeChar, h10, h13]

theorem length_le_netasciiEncode_length (x : List Nat) :
    x.length ≤ (netasciiEncode x).length := by
  induction x with
  | nil => simp [netasciiEncode]
  | cons c t ih =>
      have hc := one_le_encodeChar_length c
      simp only [netasciiEncode, List.length_append, List.length_cons]
      omega

theorem netasciiEncode_length_le (x : List Nat) :
    (netasciiEncode x).length ≤ 2 * x.length := by
  induction x with
  | nil => simp [netasciiEncode]
  | cons c t ih =>
      have hc := encodeChar_length_le_two c
      simp only [netasciiEncode, List.length_append, List.length_cons]
      omega

theorem netasciiEncode_eq_nil_iff (x : List Nat) :
    netasciiEncode x = [] ↔ x = [] := by
  cases x with
  | nil => simp [netasciiEncode]
  | cons c t =>
      have hc := one_le_encodeChar_length c
      constructor
      · intro h
        have := congrArg List.length h
        simp only [netasciiEncode, List.length_append, List.length_nil] at this
        omega
      · intro h
        exact absurd h (List.cons_ne_nil c t)

theorem netasciiDecode_cons_of_ne (c : Nat) (l : List Nat) (hc : c ≠ 13) :
    netasciiDecode (c :: l) = c :: netasciiDecode l := by
  cases l with
  | nil => rfl
  | cons d r => simp [netasciiDecode, hc]

theorem netasciiDecode_netasciiEncode (x : List Nat) :
    netasciiDecode (netasciiEncode x) = x := by
  induction x with
  | nil => rfl
  | cons c t ih =>
      by_cases h10 : c = 10
      · subst h10
        simpa [netasciiEncode, encodeChar, netasciiDecode] using ih
      · by_cases h13 : c = 13
        · subst h13
          simpa [netasciiEncode, encodeChar, netasciiDecode] using ih
        · have he : netasciiEncode (c :: t) = c :: netasciiEncode t := by
            simp [netasciiEncode, encodeChar, h10, h13]
          rw [he, netasciiDecode_cons_of_ne c _ h13, ih]

/-! NetasciiReader state.  The Python object holds the wrapped reader, a
carry buffer of encoded bytes beyond the last requested size, and the pair
_slurp / _size which the source always assigns together (netascii.py line
63); they are therefore modelled as one optional triple of the
materialized bytes, the current position inside them (a BytesIO cursor)
and the cached size.  The underlying reader is modelled as the list of
its remaining bytes, with read n returning the first n of them, the
behaviour of the StringIO / file / BytesIO sources the repository uses. -/

structure NetasciiReader where
  reader : List Nat
  buffer : List Nat
  slurpSize : Option (List Nat × Nat × Nat)
deriving DecidableEq, Repr

/-- NetasciiReader.read.  With the slurp present it reads from the
materialized buffer at the saved cursor.  Otherwise it serves the carry
buffer first, pulls size minus buffered bytes from the wrapped reader
(on a BytesIO-like source a negative argument reads the whole remainder),
encodes them, returns the first size bytes and keeps the rest as the new
carry buffer. -/
def NetasciiReader.read (s : NetasciiReader) (size : Nat) : List Nat × NetasciiReader :=
  match s.slurpSize with
  | some (slurp, pos, sz) =>
      let out := (slurp.drop pos).take size
      (out, { s with slurpSize := some (slurp, pos + out.length, sz) })
  | none =>
      let bsz := s.buffer.length
      let fromReader := if bsz ≤ size then s.reader.take (size - bsz) else s.reader
      let data := s.buffer ++ netasciiEncode fromReader
      (data.take size,
       { s with reader := s.reader.drop fromReader.length, buffer := data.drop size })

/-- The while loop of NetasciiReader.size: repeated read(512) in streaming
mode until a read comes back empty, concatenating everything produced.
The loop is expressed directly on the reader and buffer components, which
are the only state while the slurp is absent. -/
def slurpLoop (reader buffer : List Nat) : List Nat :=
  let bsz := buffer.length
  let fromReader := if bsz ≤ 512 then reader.take (512 - bsz) else reader
  let data := buffer ++ netasciiEncode fromReader
  if data = [] then []
  else data.take 512 ++ slurpLoop (reader.drop fromReader.length) (data.drop 512)
termination_by 2 * reader.length + buffer.length
decreasing_by
  rename_i hne
  replace hne := List.length_pos.mpr hne
  unfold data fromReader bsz at hne
  simp only [List.length_append] at hne
  simp only [List.length_drop, List.length_append]
  by_cases hb : buffer.length ≤ 512
  · simp only [dif_pos hb] at hne ⊢
    have h1 : (List.take (512 - buffer.length) reader).length
        = min (512 - buffer.length) reader.length := List.length_take _ _
    have h2 := netasciiEncode_length_le (List.take (512 - buffer.length) reader)
    omega
  · simp only [dif_neg hb] at hne ⊢
    have h2 := netasciiEncode_length_le reader
    omega

/-- NetasciiReader.size: with the size already cached return it, else drain
the stream through read(512), cache the materialization with the cursor
rewound to 0 (the seek in the source) together with the total byte count.
The drain loop exits only on an empty read, which in streaming mode means
both the underlying reader and the carry buffer are exhausted, so those
components end empty. -/
def NetasciiReader.size (s : NetasciiReader) : Nat × NetasciiReader :=
  match s.slurpSize with
  | some (_, _, sz) => (sz, s)
  | none =>
      let slurped := slurpLoop s.reader s.buffer
      (slurped.length,
       { reader := [], buffer := [], slurpSize := some (slurped, 0, slurped.length) })

/-- A sequence of read calls, returning all outputs in order and the final
state. -/
def NetasciiReader.readSeq (s : NetasciiReader) : List Nat → List (List Nat) × NetasciiReader
  | [] => ([], s)
  | n :: ns =>
      let (out, s1) := s.read n
      let (outs, s2) := s1.readSeq ns
      (out :: outs, s2)

/-- Reference description of reads served from a cached buffer: each read
returns the next slice of the buffer, advancing the cursor by the number
of bytes actually delivered. -/
def cacheReads (data : List Nat) (pos : Nat) : List Nat → List (List Nat)
  | [] => []
  | n :: ns =>
      let out := (data.drop pos).take n
      out :: cacheReads data (pos + out.length) ns

/-- Construction of a NetasciiReader over a source, netascii.py line 28:
empty carry buffer, no slurp, no cached size. -/
def mkNetasciiReader (x : List Nat) : NetasciiReader := ⟨x, [], none⟩

theorem slurpLoop_step (r b : List Nat) :
    slurpLoop r b =
      if b ++ netasciiEncode (if b.length ≤ 512 then r.take (512 - b.length) else r) = [] then []
      else (b ++ netasciiEncode (if b.length ≤ 512 then r.take (512 - b.length) else r)).take 512
        ++ slurpLoop (r.drop (if b.length ≤ 512 then r.take (512 - b.length) else r).length)
            ((b ++ netasciiEncode (if b.length ≤ 512 then r.take (512 - b.length) else r)).drop 512) := by
  rw [slurpLoop]

theorem drop_length_take (r : List Nat) (n : Nat) :
    r.drop (r.take n).length = r.drop n := by
  rw [List.length_take]
  rcases Nat.le_total n r.length with h | h
  · rw [Nat.min_eq_left h]
  · rw [Nat.min_eq_right h, List.drop_length, List.drop_eq_nil_of_le h]

theorem slurpLoop_drain :
    ∀ (m : Nat) (r b : List Nat), 2 * r.length + b.length ≤ m → b.length ≤ 512 →
      slurpLoop r b = b ++ netasciiEncode r := by
  intro m
  induction m with
  | zero =>
      intro r b hm hb
      have hr : r.length = 0 := by omega
      have hb0 : b.length = 0 := by omega
      rw [List.length_eq_zero] at hr hb0
      subst hr; subst hb0
      rw [slurpLoop_step]
      simp [netasciiEncode]
  | succ m ih =>
      intro r b hm hb
      rw [slurpLoop_step]
      simp only [if_pos hb]
      set k := r.take (512 - b.length) with hk
      by_cases hd : b ++ netasciiEncode k = []
      · rw [if_pos hd]
        have hb0 : b = [] := (List.append_eq_nil.mp hd).1
        have hk0 : k = [] := (netasciiEncode_eq_nil_iff k).mp (List.append_eq_nil.mp hd).2
        subst hb0
        simp only [List.length_nil, Nat.sub_zero] at hk
        have hr : r = [] := by
          cases r with
          | nil => rfl
          | cons a t => rw [hk] at hk0; simp at hk0
        subst hr
        simp [netasciiEncode]
      · rw [if_neg hd]
        set data := b ++ netasciiEncode k with hdata
        have h1 : k.length = min (512 - b.length) r.length := by
          rw [hk, List.length_take]
        have h2 := netasciiEncode_length_le k
        have h3 : 0 < data.length := List.length_pos.mpr hd
        have hdl : data.length = b.length + (netasciiEncode k).length := by
          rw [hdata, List.length_append]
        have hlt : 2 * (r.drop k.length).length + (data.drop 512).length
            < 2 * r.length + b.length := by
          simp only [List.length_drop]
          omega
        have hble : (data.drop 512).length ≤ 512 := by
          simp only [List.length_drop]
          omega
        rw [ih (r.drop k.length) (data.drop 512) (by omega) hble]
        rw [← List.append_assoc, List.take_append_drop, hdata, List.append_assoc]
        congr 1
        rw [hk, drop_length_take, ← netasciiEncode_append, List.take_append_drop]

theorem slurpLoop_eq_encode (r b : List Nat) (hb : b.length ≤ 512) :
    slurpLoop r b = b ++ netasciiEncode r :=
  slurpLoop_drain (2 * r.length + b.length) r b le_rfl hb

/-- On a freshly constructed reader, size drains the whole source and
caches its netascii encoding with the cursor rewound to 0. -/
theorem size_fresh (x : List Nat) :
    (mkNetasciiReader x).size
      = ((netasciiEncode x).length,
         ⟨[], [], some (netasciiEncode x, 0, (netasciiEncode x).length)⟩) := by
  have h : slurpLoop x [] = netasciiEncode x := by
    simpa using slurpLoop_eq_encode x [] (by simp)
  simp [NetasciiReader.size, mkNetasciiReader, h]

/-- With the slurp present, read serves the next slice of the cached
buffer and leaves the underlying reader and the carry buffer untouched. -/
theorem read_slurp (s : NetasciiReader) (d : List Nat) (p sz n : Nat)
    (h : s.slurpSize = some (d, p, sz)) :
    s.read n = ((d.drop p).take n,
      { s with slurpSize := some (d, p + ((d.drop p).take n).length, sz) }) := by
  unfold NetasciiReader.read
  rw [h]

/-- Every sequence of reads performed after the slurp is present is served
from the cached buffer, and the underlying reader component never
changes. -/
theorem readSeq_slurp (d : List Nat) (sz : Nat) :
    ∀ (ns : List Nat) (s : NetasciiReader) (p : Nat), s.slurpSize = some (d, p, sz) →
      (s.readSeq ns).1 = cacheReads d p ns ∧ (s.readSeq ns).2.reader = s.reader := by
  intro ns
  induction ns with
  | nil => intro s p h; simp [NetasciiReader.readSeq, cacheReads]
  | cons n rest ih =>
      intro s p h
      have hr := read_slurp s d p sz n h
      have hnext : (s.read n).2.slurpSize
          = some (d, p + ((d.drop p).take n).length, sz) := by rw [hr]
      obtain ⟨ih1, ih2⟩ := ih (s.read n).2 (p + ((d.drop p).take n).length) hnext
      constructor
      · simp only [NetasciiReader.readSeq, cacheReads]
        rw [ih1]
        simp [hr]
      · simp only [NetasciiReader.readSeq]
        rw [ih2, hr]

/-! The session engine, from fbtftp/base_handler.py.

A peer is an address paired with a port.  Every datagram the session
sends is recorded together with its destination. -/

abbrev Peer := String × Nat

abbrev Send := List Nat × Peer

/-- The per-session digest of base_handler.py SessionStats, restricted to
the fields the engine mutates.  The error record is the empty dict on
success, modelled as none, else the pair of error code and message
bytes. -/
structure SessionStats where
  error : Option (Nat × List Nat)
  packets_sent : Nat
  packets_acked : Nat
  bytes_sent : Nat
  retransmits : Nat
  blksize : Nat
  options : List (String × String)
deriving DecidableEq, Repr

/-- The mutable state of BaseHandler.  The wall-clock deadline bookkeeping
of _reset_timeout is not part of the state: timeout expiry is delivered
as an explicit event.  The byte source behind get_response_data is
modelled as the list of its remaining bytes, read n returning the first
n of them; the retry budget and negotiated timeout, which __init__ pops
from the option dict into their own attributes, are separate fields and
the options field holds the remaining client options. -/
structure Handler where
  timeout : Nat
  retries : Nat
  block_size : Nat
  last_block_sent : Nat
  retransmits : Nat
  global_retransmits : Nat
  current_block : Option (List Nat)
  should_stop : Bool
  waiting_last_ack : Bool
  options : List (String × String)
  response_data : List Nat
  peer : Peer
  stats : SessionStats
deriving DecidableEq, Repr

/-- Fresh SessionStats, base_handler.py lines 66 to 77. -/
def mkStats : SessionStats :=
  { error := none, packets_sent := 0, packets_acked := 0, bytes_sent := 0
    retransmits := 0, blksize := DEFAULT_BLKSIZE, options := [] }

/-- BaseHandler.__init__ for a request whose byte source resolves without
an exception. -/
def mkHandler (peer : Peer) (default_timeout retries : Nat)
    (options : List (String × String)) (source : List Nat) : Handler :=
  { timeout := default_timeout, retries := retries
    block_size := DEFAULT_BLKSIZE, last_block_sent := 0
    retransmits := 0, global_retransmits := 0
    current_block := none, should_stop := false, waiting_last_ack := false
    options := options, response_data := source, peer := peer
    stats := mkStats }

/-- OACK payload: the source packs every key as key NUL value and joins
the packed options, followed by one empty string, with NUL, which yields
key NUL value NUL for each option in order. -/
def optBytes : List (String × String) → List Nat
  | [] => []
  | (k, v) :: rest => strBytes k ++ 0 :: (strBytes v ++ 0 :: optBytes rest)

/-- BaseHandler._transmit_oack. -/
def Handler.transmitOack (h : Handler) : Handler × List Send :=
  let packet := u16 OPCODE_OACK ++ optBytes h.options
  ({ h with stats := { h.stats with packets_sent := h.stats.packets_sent + 1 } },
   [(packet, h.peer)])

/-- BaseHandler._transmit_data.  With no block produced yet it falls back
to the OACK; otherwise it sends DATA with the current block number and
payload, counts the packet and the payload bytes, and raises the
waiting-last-ack flag on a short block. -/
def Handler.transmitData (h : Handler) : Handler × List Send :=
  match h.current_block with
  | none => h.transmitOack
  | some block =>
      let packet := u16 OPCODE_DATA ++ u16 h.last_block_sent ++ block
      let h1 := { h with stats := { h.stats with
                    packets_sent := h.stats.packets_sent + 1
                    bytes_sent := h.stats.bytes_sent + block.length } }
      let h2 := if block.length < h1.block_size
                then { h1 with waiting_last_ack := true } else h1
      (h2, [(packet, h.peer)])

/-- BaseHandler._transmit_error.  The source reads the error record from
the stats, which is populated at every call site; the statistics counters
are not touched. -/
def Handler.transmitError (h : Handler) : Handler × List Send :=
  match h.stats.error with
  | some (code, msg) => (h, [(u16 OPCODE_ERROR ++ u16 code ++ msg ++ [0], h.peer)])
  | none => (h, [])

/-- BaseHandler._next_block: increment the block counter with the wrap
beyond MAX_BLOCK_NUMBER, then read one block from the source.  The read
loop keeps issuing reads until the block is full or a read returns
nothing new; on the take and drop byte source model this yields exactly
the first block_size remaining bytes.  The source read never raises
here, so the error branch of the source is not reachable in the model. -/
def Handler.nextBlock (h : Handler) : Handler :=
  let lbs := h.last_block_sent + 1
  let lbs := if MAX_BLOCK_NUMBER < lbs then 0 else lbs
  { h with last_block_sent := lbs
           current_block := some (h.response_data.take h.block_size)
           response_data := h.response_data.drop h.block_size }

/-- BaseHandler._handle_ack.  An ACK whose block number differs from the
last block sent is ignored.  A matching ACK resets the per-block
retransmit counter, counts the acknowledgment, and either ends the
session (after the final short block) or sends the next block. -/
def Handler.handleAck (h : Handler) (block_number : Nat) : Handler × List Send :=
  if block_number ≠ h.last_block_sent then (h, [])
  else
    let h1 := { h with
                retransmits := 0
                stats := { h.stats with packets_acked := h.stats.packets_acked + 1 } }
    if h1.waiting_last_ack then ({ h1 with should_stop := true }, [])
    else h1.nextBlock.transmitData

/-- BaseHandler._handle_timeout.  The source retransmits while
retries >= retransmits, counting the retransmit in the per-block and
global counters; once the counter exceeds the budget it records error
code 0 with the timeout message, appending the missed-last-ack note when
the waiting-last-ack flag is set, and stops without transmitting
anything. -/
def Handler.handleTimeout (h : Handler) : Handler × List Send :=
  if h.retransmits ≤ h.retries then
    let (h1, out) := h.transmitData
    ({ h1 with retransmits := h1.retransmits + 1
               global_retransmits := h1.global_retransmits + 1 }, out)
  else
    let msg := "timeout after " ++ toString h.retransmits ++ " retransmits."
    let msg := if h.waiting_last_ack then msg ++ " Missed last ack." else msg
    ({ h with stats := { h.stats with error := some (ERR_UNDEFINED, strBytes msg) }
              should_stop := true }, [])

/-- BaseHandler.on_new_data after a datagram arrives.  A datagram from an
address other than the bound peer stops the session with nothing sent.
The none result models the struct.error raised on a datagram shorter
than the four unpacked bytes.  A client ERROR is recorded and echoed, a
non-ACK opcode draws the illegal-operation ERROR, an ACK is handled by
_handle_ack. -/
def Handler.onNewData (h : Handler) (data : List Nat) (src : Peer) :
    Option (Handler × List Send) :=
  if src ≠ h.peer then some ({ h with should_stop := true }, [])
  else if data.length < 4 then none
  else
    let code := 256 * data.getD 0 0 + data.getD 1 0
    let block_number := 256 * data.getD 2 0 + data.getD 3 0
    if code = OPCODE_ERROR then
      let msg := ((data.drop 4).dropLast).filter (fun b => b < 128)
      let h1 := { h with stats := { h.stats with error := some (block_number, msg) } }
      let (h2, out) := h1.transmitError
      some ({ h2 with should_stop := true }, out)
    else if code ≠ OPCODE_ACK then
      let h1 := { h with stats := { h.stats with
                    error := some (ERR_ILLEGAL_OPERATION, strBytes "I only do reads, really") } }
      let (h2, out) := h1.transmitError
      some ({ h2 with should_stop := true }, out)
    else some (h.handleAck block_number)

/-- Python repr of a mode string, for values free of quote characters,
backslashes and nonprintable characters: the string wrapped in single
quotes (code point 39). -/
def pyRepr (s : String) : String :=
  String.singleton (Char.ofNat 39) ++ s ++ String.singleton (Char.ofNat 39)

/-- The characters for which pyRepr agrees with the Python repr of a
string. -/
def reprSimple (s : String) : Prop :=
  ∀ c ∈ s.data, 32 ≤ c.toNat ∧ c.toNat < 127 ∧ c.toNat ≠ 39 ∧ c.toNat ≠ 92

instance (s : String) : Decidable (reprSimple s) := by
  unfold reprSimple
  infer_instance

/-- One decimal digit of a numeral. -/
def decDigit? (c : Char) : Option Nat :=
  if 48 ≤ c.toNat ∧ c.toNat ≤ 57 then some (c.toNat - 48) else none

def decNumCore (acc : Option Nat) : List Char → Option Nat
  | [] => acc
  | c :: rest =>
      match acc, decDigit? c with
      | some n, some d => decNumCore (some (n * 10 + d)) rest
      | _, _ => none

/-- Python int() on an option value: a plain decimal numeral parses to
its value, anything else raises, modelled as none.  Negative numerals
never reach the engine from its own servers and are not modelled. -/
def pyInt? (s : String) : Option Nat :=
  match s.data with
  | [] => none
  | l => decNumCore (some 0) l

/-- Outcome of _parse_options: the unknown-mode branch transmits an ERROR
and closes the session; a non-numeric blksize or timeout value makes
int() raise, modelled as raised. -/
inductive ParseOutcome where
  | raised : ParseOutcome
  | halted : Handler → List Send → ParseOutcome
  | ok : Handler → ParseOutcome
deriving DecidableEq, Repr

/-- The option loop of _parse_options, base_handler.py lines 221 to 231:
iterate the options in order; blksize is echoed verbatim and becomes the
block size, tsize is answered with the size of the (possibly wrapped)
byte source, timeout is echoed verbatim and becomes the ACK timeout;
every other key is dropped from the acknowledgment. -/
def ackLoop (h : Handler) : List (String × String) →
    Option (Handler × List (String × String))
  | [] => some (h, [])
  | (k, v) :: rest =>
      if k = "blksize" then
        match pyInt? v with
        | none => none
        | some n =>
            match ackLoop { h with block_size := n } rest with
            | none => none
            | some (h1, acc) => some (h1, ("blksize", v) :: acc)
      else if k = "tsize" then
        let t := toString h.response_data.length
        match ackLoop h rest with
        | none => none
        | some (h1, acc) => some (h1, ("tsize", t) :: acc)
      else if k = "timeout" then
        match pyInt? v with
        | none => none
        | some n =>
            match ackLoop { h with timeout := n } rest with
            | none => none
            | some (h1, acc) => some (h1, ("timeout", v) :: acc)
      else ackLoop h rest

/-- Tail of _parse_options shared by every mode: run the option loop,
then keep only the acknowledged options and record the block size and
acknowledged options in the stats. -/
def Handler.parseOptionsAck (h : Handler) : ParseOutcome :=
  match ackLoop h h.options with
  | none => .raised
  | some (h1, acked) =>
      .ok { h1 with
            options := acked
            stats := { h1.stats with blksize := h1.block_size, options := acked } }

/-- BaseHandler._parse_options.  The framework-injected retries and
default_timeout keys live in their own fields of the model, matching the
two del statements.  A netascii mode wraps the byte source in
NetasciiReader, whose drained output is the netascii encoding of the
source (theorem slurpLoop_eq_encode); any other mode except octet
records the illegal-operation error with the Unknown mode message,
transmits it and closes the session. -/
def Handler.parseOptions (h : Handler) : ParseOutcome :=
  match h.options.lookup "mode" with
  | some m =>
      if m = "netascii" then
        Handler.parseOptionsAck
          { h with response_data := netasciiEncode h.response_data }
      else if m ≠ "octet" then
        let msg := "Unknown mode: " ++ pyRepr m
        let h1 := { h with stats := { h.stats with
                      error := some (ERR_ILLEGAL_OPERATION, strBytes msg) } }
        let (h2, out) := h1.transmitError
        .halted { h2 with should_stop := true } out
      else Handler.parseOptionsAck h
  | none => Handler.parseOptionsAck h

/-- BaseHandler.run up to entering the receive loop: a construction-time
error is transmitted and ends the session; otherwise options are parsed
and either the OACK or the first DATA block is sent. -/
def Handler.runStart (h : Handler) : Option (Handler × List Send) :=
  match h.stats.error with
  | some _ =>
      let (h1, out) := h.transmitError
      some ({ h1 with should_stop := true }, out)
  | none =>
      match h.parseOptions with
      | .raised => none
      | .halted h1 out => some (h1, out)
      | .ok h1 =>
          if h1.options ≠ [] then some h1.transmitOack
          else some h1.nextBlock.transmitData

/-- One iteration of the serving loop reacts to one event: a datagram
arriving on the session socket, or the ACK deadline expiring. -/
inductive Event where
  | recv : List Nat → Peer → Event
  | timedOut : Event
deriving DecidableEq, Repr

def Handler.step (h : Handler) : Event → Option (Handler × List Send)
  | .recv data src => h.onNewData data src
  | .timedOut => some h.handleTimeout

/-- The while loop of run: process events until the stop flag is set.
The none result propagates a raised exception. -/
def Handler.runEvents (h : Handler) : List Event → Option (Handler × List Send)
  | [] => some (h, [])
  | e :: es =>
      if h.should_stop then some (h, [])
      else
        match h.step e with
        | none => none
        | some (h1, out) =>
            match h1.runEvents es with
            | none => none
            | some (h2, out2) => some (h2, out ++ out2)

/-- A whole session: the start of run followed by the event loop. -/
def Handler.runSession (h : Handler) (events : List Event) :
    Option (Handler × List Send) :=
  match h.runStart with
  | none => none
  | some (h1, out) =>
      match h1.runEvents events with
      | none => none
      | some (h2, out2) => some (h2, out ++ out2)

/-! The RRQ dispatcher, from fbtftp/base_server.py. -/

/-- Splitting a byte string on NUL, the behaviour of str.split on the
latin-1 decoded datagram: splitting the empty string yields one empty
piece. -/
def splitNul : List Nat → List (List Nat)
  | [] => [[]]
  | 0 :: rest => [] :: splitNul rest
  | c :: rest =>
      match splitNul rest with
      | [] => [[c]]
      | t :: ts => (c :: t) :: ts

/-- latin-1 decoding: every byte becomes the character with the same code
point. -/
def bytesToStr (l : List Nat) : String := String.mk (l.map Char.ofNat)

/-- The handler construction request BaseServer.on_new_data assembles
from a well-formed RRQ: the requested path, the mode token lowercased,
the framework-injected default_timeout and retries configuration values,
and the remaining key value pairs in order with keys lowercased. -/
structure SpawnedReq where
  path : String
  mode : String
  default_timeout : Nat
  retries : Nat
  extra : List (String × String)
deriving DecidableEq, Repr

/-- The option pair loop of on_new_data, base_server.py lines 318 to 321. -/
def optionPairs : List String → List (String × String)
  | k :: v :: rest => (k.toLower, v) :: optionPairs rest
  | _ => []

/-- Result of BaseServer.on_new_data on one datagram.  raised models the
struct.error escaping from unpacking a datagram shorter than two bytes;
dropped means the handler returned normally after logging, with no
handler spawned; the source contains no send call on any path, so no
reply is ever emitted by the dispatcher. -/
inductive ListenerOutcome where
  | raised : ListenerOutcome
  | dropped : ListenerOutcome
  | spawned : SpawnedReq → ListenerOutcome
deriving DecidableEq, Repr

/-- BaseServer.on_new_data: parse the opcode, drop anything that is not an
RRQ, split the rest on NUL keeping non-empty tokens, drop malformed token
lists (fewer than two tokens or an odd number), otherwise build the
handler request. -/
def serverOnNewData (retries timeout : Nat) (data : List Nat) : ListenerOutcome :=
  if data.length < 2 then .raised
  else
    let code := 256 * data.getD 0 0 + data.getD 1 0
    if code ≠ OPCODE_RRQ then .dropped
    else
      let tokens := ((splitNul (data.drop 2)).filter (fun t => t ≠ [])).map bytesToStr
      if tokens.length < 2 ∨ tokens.length % 2 ≠ 0 then .dropped
      else
        .spawned ⟨tokens.getD 0 "", (tokens.getD 1 "").toLower, timeout, retries,
                  optionPairs (tokens.drop 2)⟩

/-! Claim theorems. -/

/-- Claim C4: the netascii encoding produced by NetasciiReader, that is
the total output of draining it over a source x, replaces every LF with
CR LF and every bare CR with CR NUL (it equals netasciiEncode x, the
per-byte substitution of the read loop applied to all of x); decoding
the encoded stream with CR LF to LF and CR NUL to CR reproduces x, and
the encoded length is at least the length of x. -/
theorem netascii_law (x : List Nat) :
    slurpLoop x [] = netasciiEncode x
  ∧ netasciiDecode (netasciiEncode x) = x
  ∧ x.length ≤ (netasciiEncode x).length := by
  refine ⟨?_, netasciiDecode_netasciiEncode x, length_le_netasciiEncode_length x⟩
  simpa using slurpLoop_eq_encode x [] (by simp)

/-- Claim C9: on a freshly constructed NetasciiReader over a finite
source x, the first size() call returns the byte count of the fully
encoded stream, which is exactly the total output the read drain
produces; the state afterwards holds the materialized encoding with the
cursor at 0, every subsequent sequence of reads is served as slices of
that cached buffer, and a read in the cached state never touches the
underlying reader component. -/
theorem netascii_size_materializes (x ns : List Nat) :
    (mkNetasciiReader x).size.1 = (netasciiEncode x).length
  ∧ slurpLoop x [] = netasciiEncode x
  ∧ (mkNetasciiReader x).size.2
      = ⟨[], [], some (netasciiEncode x, 0, (netasciiEncode x).length)⟩
  ∧ ((mkNetasciiReader x).size.2.readSeq ns).1 = cacheReads (netasciiEncode x) 0 ns
  ∧ ((mkNetasciiReader x).size.2.readSeq ns).2.reader = (mkNetasciiReader x).size.2.reader
  ∧ (∀ (s : NetasciiReader) (d : List Nat) (p sz n : Nat),
       s.slurpSize = some (d, p, sz) →
       (s.read n).1 = (d.drop p).take n ∧ (s.read n).2.reader = s.reader) := by
  have hs := size_fresh x
  have hcached : ((mkNetasciiReader x).size.2).slurpSize
      = some (netasciiEncode x, 0, (netasciiEncode x).length) := by rw [hs]
  obtain ⟨h1, h2⟩ := readSeq_slurp (netasciiEncode x) (netasciiEncode x).length ns
    (mkNetasciiReader x).size.2 0 hcached
  refine ⟨by rw [hs], ?_, by rw [hs], h1, h2, ?_⟩
  · simpa using slurpLoop_eq_encode x [] (by simp)
  · intro s d p sz n h
    rw [read_slurp s d p sz n h]
    exact ⟨rfl, rfl⟩

/-- Witness for netascii_size_materializes: a three byte source whose
encoding has five bytes, and a cached read served from the slurp. -/
theorem netascii_size_materializes_witness :
    (mkNetasciiReader [102, 10, 13]).size.1 = 5
  ∧ ((⟨[], [], some ([1, 2, 3], 1, 3)⟩ : NetasciiReader).read 2).1 = [2, 3]
  ∧ ((⟨[], [], some ([1, 2, 3], 1, 3)⟩ : NetasciiReader).read 2).2.reader = [] := by
  have t := netascii_size_materializes [102, 10, 13] [512]
  have hread := t.2.2.2.2.2 ⟨[], [], some ([1, 2, 3], 1, 3)⟩ [1, 2, 3] 1 3 2 rfl
  exact ⟨t.1.trans (by decide), hread.1.trans (by decide), hread.2⟩

/-- Claim C10: transmitting an ERROR datagram leaves the whole statistics
record unchanged, in particular packets_sent and bytes_sent; a DATA or
OACK transmission is what increments packets_sent by one, and only the
DATA payload length is added to bytes_sent (the OACK fallback of
_transmit_data, taken when no block exists, adds nothing). -/
theorem transmit_stats_frame (h : Handler) :
    (h.transmitError).1.stats = h.stats
  ∧ (h.transmitOack).1.stats.packets_sent = h.stats.packets_sent + 1
  ∧ (h.transmitOack).1.stats.bytes_sent = h.stats.bytes_sent
  ∧ (h.transmitOack).1.stats.packets_acked = h.stats.packets_acked
  ∧ (h.transmitData).1.stats.packets_sent = h.stats.packets_sent + 1
  ∧ (h.transmitData).1.stats.bytes_sent
      = h.stats.bytes_sent + (h.current_block.getD []).length
  ∧ (h.transmitData).1.stats.packets_acked = h.stats.packets_acked := by
  refine ⟨?_, ?_, ?_, ?_, ?_, ?_, ?_⟩ <;>
    cases he : h.stats.error <;>
    cases hc : h.current_block <;>
    simp [Handler.transmitError, Handler.transmitOack, Handler.transmitData, he, hc] <;>
    split <;> simp

/-- Claim C8: a datagram at the listener that carries an opcode (at least
two bytes) which is not RRQ, or whose NUL-split token list has fewer than
two non-empty tokens or an odd number of them, is dropped: on_new_data
returns normally, spawns no handler, and, the dispatcher containing no
send call, no reply is emitted. -/
theorem listener_drops_malformed (rt tm : Nat) (data : List Nat)
    (hlen : 2 ≤ data.length)
    (hbad : 256 * data.getD 0 0 + data.getD 1 0 ≠ OPCODE_RRQ
      ∨ ((splitNul (data.drop 2)).filter (fun t => t ≠ [])).length < 2
      ∨ ((splitNul (data.drop 2)).filter (fun t => t ≠ [])).length % 2 ≠ 0) :
    serverOnNewData rt tm data = .dropped := by
  unfold serverOnNewData
  rw [if_neg (by omega)]
  by_cases hop : 256 * data.getD 0 0 + data.getD 1 0 ≠ OPCODE_RRQ
  · rw [if_pos hop]
  · rw [if_neg hop]
    have hcond :
        (((splitNul (data.drop 2)).filter (fun t => t ≠ [])).map bytesToStr).length < 2
      ∨ (((splitNul (data.drop 2)).filter (fun t => t ≠ [])).map bytesToStr).length % 2
          ≠ 0 := by
      simp only [List.length_map]
      rcases hbad with h | h | h
      · exact absurd h hop
      · exact Or.inl h
      · exact Or.inr h
    rw [if_pos hcond]

/-- Witness for listener_drops_malformed: the first malformed payload of
the malformed-request test, an RRQ whose remainder holds a single token
and no terminator. -/
theorem listener_drops_malformed_witness :
    serverOnNewData 2 2 ([0, 1] ++ strBytes "some_fi") = .dropped :=
  listener_drops_malformed 2 2 ([0, 1] ++ strBytes "some_fi")
    (by decide) (by decide)

/-- Frame facts about _transmit_data (covering its OACK fallback): the
fields of the handler other than the statistics counters and the
waiting-last-ack flag are untouched, and every datagram goes to the
bound peer. -/
theorem transmitData_effects (h : Handler) :
    (h.transmitData).1.retransmits = h.retransmits
  ∧ (h.transmitData).1.global_retransmits = h.global_retransmits
  ∧ (h.transmitData).1.stats.error = h.stats.error
  ∧ (h.transmitData).1.should_stop = h.should_stop
  ∧ (h.transmitData).1.peer = h.peer
  ∧ (h.transmitData).1.last_block_sent = h.last_block_sent
  ∧ (h.transmitData).1.current_block = h.current_block
  ∧ (h.transmitData).1.retries = h.retries
  ∧ ∀ s ∈ (h.transmitData).2, s.2 = h.peer := by
  cases hc : h.current_block
  · simp [Handler.transmitData, Handler.transmitOack, hc]
  · simp only [Handler.transmitData, hc]
    split <;> simp

/-- A session state at the retransmit budget boundary: retries is 1 and
one retransmit of DATA block 1 has already happened. -/
def hRetry : Handler :=
  { mkHandler ("client", 9) 10 1 [] (strBytes "x") with
      retransmits := 1, current_block := some (strBytes "x"), last_block_sent := 1 }

def hRetry2 : Handler := { hRetry with retransmits := 2 }

/-- Claim C2, counterexample: with the per-block retransmit count equal
to the budget (1 = 1), so not strictly below it, a timeout still
retransmits the current DATA block, leaves the error record empty and
does not terminate; the claim, which permits a retransmit only when the
count is strictly less than retries, is false on this state. -/
theorem handleTimeout_at_budget :
    hRetry.retransmits = hRetry.retries
  ∧ ¬ (hRetry.retransmits < hRetry.retries)
  ∧ (hRetry.handleTimeout).2 = [([0, 3, 0, 1, 120], ("client", 9))]
  ∧ (hRetry.handleTimeout).1.should_stop = false
  ∧ (hRetry.handleTimeout).1.stats.error = none
  ∧ (hRetry.handleTimeout).1.retransmits = 2 := by decide

/-- Claim C2 as amended: on ACK deadline expiry the session retransmits
the current DATA (or the OACK when no block exists yet) if and only if
the per-block retransmit count is at most retries, so up to retries plus
one retransmits happen per block; once the count exceeds retries it
records error code 0 with the timeout message, with the missed-last-ack
note appended when the waiting-last-ack flag is set, and terminates
without sending any datagram. -/
theorem handleTimeout_spec (h : Handler) :
    (h.retransmits ≤ h.retries →
        (h.handleTimeout).1.retransmits = h.retransmits + 1
      ∧ (h.handleTimeout).1.global_retransmits = h.global_retransmits + 1
      ∧ (h.handleTimeout).1.stats.error = h.stats.error
      ∧ (h.handleTimeout).1.should_stop = h.should_stop
      ∧ (h.handleTimeout).2 = (h.transmitData).2)
  ∧ (h.retries < h.retransmits →
        (h.handleTimeout).2 = []
      ∧ (h.handleTimeout).1.should_stop = true
      ∧ (h.handleTimeout).1.stats.error
          = some (ERR_UNDEFINED, strBytes (if h.waiting_last_ack
              then "timeout after " ++ toString h.retransmits ++ " retransmits."
                    ++ " Missed last ack."
              else "timeout after " ++ toString h.retransmits ++ " retransmits."))) := by
  constructor
  · intro hle
    obtain ⟨e1, e2, e3, e4, e5, e6, e7, e8, e9⟩ := transmitData_effects h
    cases htd : h.transmitData with
    | mk h1 out =>
        rw [htd] at e1 e2 e3 e4 e9
        simp only [Handler.handleTimeout, if_pos hle, htd]
        refine ⟨?_, ?_, ?_, ?_, ?_⟩ <;> simp_all
  · intro hlt
    have hn : ¬ h.retransmits ≤ h.retries := by omega
    simp only [Handler.handleTimeout, if_neg hn]
    refine ⟨by simp, by simp, ?_⟩
    by_cases hw : h.waiting_last_ack <;> simp [hw]

/-- Witness for handleTimeout_spec, at the boundary state and just past
it. -/
theorem handleTimeout_spec_witness :
    ((hRetry.handleTimeout).1.retransmits = hRetry.retransmits + 1
      ∧ (hRetry.handleTimeout).2 = (hRetry.transmitData).2)
  ∧ ((hRetry2.handleTimeout).2 = []
      ∧ (hRetry2.handleTimeout).1.should_stop = true) := by
  have t1 := (handleTimeout_spec hRetry).1 (by decide)
  have t2 := (handleTimeout_spec hRetry2).2 (by decide)
  exact ⟨⟨t1.1, t1.2.2.2.2⟩, ⟨t2.1, t2.2.1⟩⟩

/-- A request carrying blksize 1, an integer outside the 8 to 65464 range
of RFC 2348. -/
def hBlkOne : Handler :=
  mkHandler ("client", 9) 10 2 [("mode", "octet"), ("blksize", "1")] [1, 2, 3]

def hBlkOneRes : Handler :=
  { hBlkOne with
      block_size := 1
      options := [("blksize", "1")]
      stats := { mkStats with blksize := 1, options := [("blksize", "1")] } }

/-- Claim C5, counterexample: a blksize of 1, an integer not between 8
and 65464, is accepted all the same: option parsing succeeds, the block
size becomes 1 and blksize is kept for the OACK, so the claim that only
values between 8 and 65464 are accepted is false on this request. -/
theorem blksize_one_accepted :
    hBlkOne.parseOptions = .ok hBlkOneRes
  ∧ hBlkOneRes.block_size = 1
  ∧ hBlkOneRes.options = [("blksize", "1")]
  ∧ ¬ (8 ≤ (1 : Nat) ∧ (1 : Nat) ≤ 65464) := by decide

/-- Claim C5 as amended: a blksize option whose value parses as an
integer is always accepted, with no range validation: the session sets
its block size to the value, overriding the 512 default, and echoes the
value in the OACK. -/
theorem blksize_no_range_check (p : Peer) (dt rt : Nat) (src : List Nat)
    (v : String) (n : Nat) (hv : pyInt? v = some n) :
    (mkHandler p dt rt [("mode", "octet"), ("blksize", v)] src).parseOptions
      = .ok { mkHandler p dt rt [("mode", "octet"), ("blksize", v)] src with
              block_size := n
              options := [("blksize", v)]
              stats := { mkStats with blksize := n, options := [("blksize", v)] } }
  ∧ ((mkHandler p dt rt [("mode", "octet"), ("blksize", v)] src).runStart).map Prod.snd
      = some [(u16 OPCODE_OACK ++ optBytes [("blksize", v)], p)] := by
  have hparse : (mkHandler p dt rt [("mode", "octet"), ("blksize", v)] src).parseOptions
      = .ok { mkHandler p dt rt [("mode", "octet"), ("blksize", v)] src with
              block_size := n
              options := [("blksize", v)]
              stats := { mkStats with blksize := n, options := [("blksize", v)] } } := by
    simp [Handler.parseOptions, Handler.parseOptionsAck, ackLoop, hv, mkHandler,
          List.lookup, mkStats]
  refine ⟨hparse, ?_⟩
  have herr : (mkHandler p dt rt [("mode", "octet"), ("blksize", v)] src).stats.error
      = none := rfl
  simp only [Handler.runStart, herr, hparse]
  simp [Handler.transmitOack, mkHandler]

/-- Witness for blksize_no_range_check, with the out-of-range value
70000. -/
theorem blksize_no_range_check_witness :
    (pyInt? "70000" = some 70000)
  ∧ (mkHandler ("client", 9) 10 2 [("mode", "octet"), ("blksize", "70000")] [1]).parseOptions
      = .ok { mkHandler ("client", 9) 10 2 [("mode", "octet"), ("blksize", "70000")] [1] with
              block_size := 70000
              options := [("blksize", "70000")]
              stats := { mkStats with blksize := 70000, options := [("blksize", "70000")] } } :=
  ⟨by decide,
   (blksize_no_range_check ("client", 9) 10 2 [1] "70000" 70000 (by decide)).1⟩

/-- Claim C6: the block number assigned to each fresh DATA block is the
previous number plus one reduced modulo 65536, so the sequence runs 1,
2, up to 65535, then 0, 1 and so on without skips; the counter stays a
16-bit value, and the DATA datagram emitted for the fresh block carries
exactly that number. -/
theorem block_number_succession (h : Handler)
    (hle : h.last_block_sent ≤ MAX_BLOCK_NUMBER) :
    (h.nextBlock).last_block_sent = (h.last_block_sent + 1) % 65536
  ∧ (h.nextBlock).last_block_sent ≤ MAX_BLOCK_NUMBER
  ∧ (h.nextBlock.transmitData).2
      = [(u16 OPCODE_DATA ++ u16 ((h.last_block_sent + 1) % 65536)
            ++ h.response_data.take h.block_size, h.peer)] := by
  have hlbs : (h.nextBlock).last_block_sent = (h.last_block_sent + 1) % 65536 := by
    simp only [Handler.nextBlock]
    split
    · have h65535 : h.last_block_sent = 65535 := by
        unfold MAX_BLOCK_NUMBER at *; omega
      simp [h65535]
    · have hlt : h.last_block_sent + 1 < 65536 := by
        unfold MAX_BLOCK_NUMBER at *; omega
      exact (Nat.mod_eq_of_lt hlt).symm
  refine ⟨hlbs, ?_, ?_⟩
  · rw [hlbs]
    have := Nat.mod_lt (h.last_block_sent + 1) (show 0 < 65536 by omega)
    unfold MAX_BLOCK_NUMBER
    omega
  · have hc : (h.nextBlock).current_block
        = some (h.response_data.take h.block_size) := rfl
    have hp : (h.nextBlock).peer = h.peer := rfl
    simp only [Handler.transmitData, hc, hlbs, hp]

/-- Witness for block_number_succession at the wrap point 65535. -/
def hWrap : Handler :=
  { mkHandler ("client", 9) 10 2 [] [7] with last_block_sent := 65535 }

theorem block_number_succession_witness :
    (hWrap.nextBlock).last_block_sent = 0
  ∧ (hWrap.nextBlock.transmitData).2 = [([0, 3, 0, 0, 7], ("client", 9))] := by
  have t := block_number_succession hWrap (by decide)
  exact ⟨t.1.trans (by decide), t.2.2.trans (by decide)⟩

/-- A session whose run loop is already stopped consumes no further
events and sends nothing more. -/
theorem runEvents_stopped (h : Handler) (hs : h.should_stop = true) :
    ∀ es, h.runEvents es = some (h, []) := by
  intro es
  cases es with
  | nil => rfl
  | cons e es => simp [Handler.runEvents, hs]

/-- Claim C7: when the mode option is present and neither octet nor
netascii (and is a string Python shows with plain single quotes), the
session start transmits exactly one ERROR datagram with code 4 and the
message Unknown mode followed by the quoted mode, records that error,
stops, and a whole session run emits that ERROR as its only datagram, so
no DATA or OACK is ever sent. -/
theorem unknown_mode_error (h : Handler) (m : String)
    (he : h.stats.error = none)
    (hm : h.options.lookup "mode" = some m)
    (_hr : reprSimple m)
    (hoct : m ≠ "octet") (hnet : m ≠ "netascii") :
    h.runStart = some
      ({ h with
          stats := { h.stats with error := some (ERR_ILLEGAL_OPERATION,
                        strBytes ("Unknown mode: " ++ pyRepr m)) }
          should_stop := true },
       [(u16 OPCODE_ERROR ++ u16 ERR_ILLEGAL_OPERATION
          ++ strBytes ("Unknown mode: " ++ pyRepr m) ++ [0], h.peer)])
  ∧ (∀ events res, h.runSession events = some res →
      res.2 = [(u16 OPCODE_ERROR ++ u16 ERR_ILLEGAL_OPERATION
          ++ strBytes ("Unknown mode: " ++ pyRepr m) ++ [0], h.peer)]) := by
  have hparse : h.parseOptions = .halted
      { h with
          stats := { h.stats with error := some (ERR_ILLEGAL_OPERATION,
                        strBytes ("Unknown mode: " ++ pyRepr m)) }
          should_stop := true }
      [(u16 OPCODE_ERROR ++ u16 ERR_ILLEGAL_OPERATION
          ++ strBytes ("Unknown mode: " ++ pyRepr m) ++ [0], h.peer)] := by
    simp only [Handler.parseOptions, hm]
    rw [if_neg hnet, if_pos hoct]
    simp [Handler.transmitError]
  have hstart : h.runStart = some
      ({ h with
          stats := { h.stats with error := some (ERR_ILLEGAL_OPERATION,
                        strBytes ("Unknown mode: " ++ pyRepr m)) }
          should_stop := true },
       [(u16 OPCODE_ERROR ++ u16 ERR_ILLEGAL_OPERATION
          ++ strBytes ("Unknown mode: " ++ pyRepr m) ++ [0], h.peer)]) := by
    simp only [Handler.runStart, he, hparse]
  refine ⟨hstart, ?_⟩
  intro events res hres
  have hstop : Handler.runEvents
      { h with
          stats := { h.stats with error := some (ERR_ILLEGAL_OPERATION,
                        strBytes ("Unknown mode: " ++ pyRepr m)) }
          should_stop := true } events
      = some ({ h with
          stats := { h.stats with error := some (ERR_ILLEGAL_OPERATION,
                        strBytes ("Unknown mode: " ++ pyRepr m)) }
          should_stop := true }, []) := runEvents_stopped _ rfl events
  simp only [Handler.runSession, hstart, hstop, List.append_nil,
    Option.some.injEq] at hres
  subst hres
  rfl

/-- The request of scenario E3: mode bogus. -/
def hBogus : Handler := mkHandler ("127.0.0.1", 5678) 10 2 [("mode", "bogus")] [1, 2, 3]

/-- Witness for unknown_mode_error: with mode bogus the single ERROR
datagram is byte for byte the expected one. -/
theorem unknown_mode_error_witness :
    hBogus.runStart = some
      ({ hBogus with
          stats := { hBogus.stats with error := some (4,
                        strBytes ("Unknown mode: " ++ pyRepr "bogus")) }
          should_stop := true },
       [([0, 5, 0, 4, 85, 110, 107, 110, 111, 119, 110, 32, 109, 111, 100, 101,
          58, 32, 39, 98, 111, 103, 117, 115, 39, 0], ("127.0.0.1", 5678))])
  ∧ strBytes ("Unknown mode: " ++ pyRepr "bogus")
      = [85, 110, 107, 110, 111, 119, 110, 32, 109, 111, 100, 101, 58, 32, 39,
         98, 111, 103, 117, 115, 39] := by
  have t := (unknown_mode_error hBogus "bogus" rfl rfl (by decide) (by decide)
    (by decide)).1
  exact ⟨t.trans (by decide), by decide⟩

/-! Support for the transfer-id binding claim: every function of the
session engine keeps the bound peer unchanged and addresses every
datagram it emits to that peer. -/

/-- Destination discipline of a call result: the peer is preserved and
all emitted datagrams go to it. -/
def peerOk (p : Peer) (r : Handler × List Send) : Prop :=
  r.1.peer = p ∧ ∀ s ∈ r.2, s.2 = p

theorem transmitOack_peerOk (h : Handler) : peerOk h.peer h.transmitOack := by
  simp [peerOk, Handler.transmitOack]

theorem transmitData_peerOk (h : Handler) : peerOk h.peer h.transmitData := by
  obtain ⟨e1, e2, e3, e4, e5, e6, e7, e8, e9⟩ := transmitData_effects h
  exact ⟨e5, e9⟩

theorem transmitError_peerOk (h : Handler) : peerOk h.peer h.transmitError := by
  cases he : h.stats.error with
  | none => simp [peerOk, Handler.transmitError, he]
  | some e =>
      cases e with
      | mk code msg => simp [peerOk, Handler.transmitError, he]

theorem nextBlock_peer (h : Handler) : (h.nextBlock).peer = h.peer := rfl

theorem handleAck_peerOk (h : Handler) (n : Nat) : peerOk h.peer (h.handleAck n) := by
  unfold Handler.handleAck
  split
  · simp [peerOk]
  · dsimp only
    split
    · simp [peerOk]
    · exact transmitData_peerOk _

theorem handleTimeout_peerOk (h : Handler) : peerOk h.peer h.handleTimeout := by
  unfold Handler.handleTimeout
  split
  · cases htd : h.transmitData with
    | mk h1 out =>
        obtain ⟨hp, hs⟩ := transmitData_peerOk h
        rw [htd] at hp hs
        exact ⟨hp, hs⟩
  · simp [peerOk]

/-- The stop-and-echo tail shared by the two error branches of
on_new_data keeps the destination discipline of _transmit_error. -/
theorem transmitError_stop_peerOk (g : Handler) (r : Handler × List Send)
    (hr : some ({ g.transmitError.1 with should_stop := true }, g.transmitError.2)
          = some r) :
    peerOk g.peer r := by
  obtain ⟨hp, hs⟩ := transmitError_peerOk g
  cases hr
  exact ⟨hp, hs⟩

theorem onNewData_peerOk (h : Handler) (data : List Nat) (src : Peer)
    (r : Handler × List Send) (hr : h.onNewData data src = some r) :
    peerOk h.peer r := by
  unfold Handler.onNewData at hr
  split at hr
  · cases hr; simp [peerOk]
  · split at hr
    · cases hr
    · dsimp only at hr
      split at hr
      · exact transmitError_stop_peerOk
          { h with stats := { h.stats with
              error := some (256 * data.getD 2 0 + data.getD 3 0,
                ((data.drop 4).dropLast).filter (fun b => b < 128)) } } r hr
      · split at hr
        · exact transmitError_stop_peerOk
            { h with stats := { h.stats with
                error := some (ERR_ILLEGAL_OPERATION,
                  strBytes "I only do reads, really") } } r hr
        · cases hr
          exact handleAck_peerOk h _

/-- The halt-with-error tail of the unknown-mode branch of
_parse_options keeps the destination discipline of _transmit_error. -/
theorem transmitError_halted_peerOk (g : Handler) (h1 : Handler) (out : List Send)
    (hr : ParseOutcome.halted { g.transmitError.1 with should_stop := true }
            g.transmitError.2 = .halted h1 out) :
    peerOk g.peer (h1, out) := by
  obtain ⟨hp, hs⟩ := transmitError_peerOk g
  cases hr
  exact ⟨hp, hs⟩

theorem transmitError_halted_ne_ok (g : Handler) (h1 : Handler) :
    ParseOutcome.halted { g.transmitError.1 with should_stop := true }
      g.transmitError.2 ≠ .ok h1 := by
  simp

theorem step_peerOk (h : Handler) (e : Event) (r : Handler × List Send)
    (hr : h.step e = some r) : peerOk h.peer r := by
  cases e with
  | recv data src => exact onNewData_peerOk h data src r hr
  | timedOut =>
      cases hr
      exact handleTimeout_peerOk h

theorem runEvents_peerOk (events : List Event) :
    ∀ (h : Handler) (r : Handler × List Send),
      h.runEvents events = some r → peerOk h.peer r := by
  induction events with
  | nil =>
      intro h r hr
      cases hr
      simp [peerOk]
  | cons e es ih =>
      intro h r hr
      unfold Handler.runEvents at hr
      split at hr
      · cases hr; simp [peerOk]
      · cases hstep : h.step e with
        | none => rw [hstep] at hr; cases hr
        | some r1 =>
            rw [hstep] at hr
            cases r1 with
            | mk h1 out =>
                dsimp only at hr
                obtain ⟨hp1, hs1⟩ := step_peerOk h e (h1, out) hstep
                cases hrec : h1.runEvents es with
                | none => rw [hrec] at hr; cases hr
                | some r2 =>
                    cases r2 with
                    | mk h2 out2 =>
                        rw [hrec] at hr
                        cases hr
                        obtain ⟨hp2, hs2⟩ := ih h1 (h2, out2) hrec
                        refine ⟨by rw [hp2, hp1], ?_⟩
                        intro s hsmem
                        rcases List.mem_append.mp hsmem with hmem | hmem
                        · exact hs1 s hmem
                        · rw [hp1] at hs2
                          exact hs2 s hmem

theorem ackLoop_peer : ∀ (l : List (String × String)) (h h1 : Handler)
    (acc : List (String × String)), ackLoop h l = some (h1, acc) →
    h1.peer = h.peer := by
  intro l
  induction l with
  | nil =>
      intro h h1 acc hr
      cases hr
      rfl
  | cons kv rest ih =>
      intro h h1 acc hr
      cases kv with
      | mk k v =>
          unfold ackLoop at hr
          split at hr
          · cases hpi : pyInt? v with
            | none => rw [hpi] at hr; cases hr
            | some n =>
                rw [hpi] at hr
                dsimp only at hr
                cases hrec : ackLoop { h with block_size := n } rest with
                | none => rw [hrec] at hr; cases hr
                | some r =>
                    cases r with
                    | mk h2 acc2 =>
                        rw [hrec] at hr
                        cases hr
                        have hp := ih _ _ _ hrec
                        exact hp
          · split at hr
            · cases hrec : ackLoop h rest with
              | none => rw [hrec] at hr; cases hr
              | some r =>
                  cases r with
                  | mk h2 acc2 =>
                      rw [hrec] at hr
                      cases hr
                      have hp := ih _ _ _ hrec
                      exact hp
            · split at hr
              · cases hpi : pyInt? v with
                | none => rw [hpi] at hr; cases hr
                | some n =>
                    rw [hpi] at hr
                    dsimp only at hr
                    cases hrec : ackLoop { h with timeout := n } rest with
                    | none => rw [hrec] at hr; cases hr
                    | some r =>
                        cases r with
                        | mk h2 acc2 =>
                            rw [hrec] at hr
                            cases hr
                            have hp := ih _ _ _ hrec
                            exact hp
              · have hp := ih _ _ _ hr
                exact hp

theorem parseOptions_peerOk (h : Handler) :
    (∀ h1 out, h.parseOptions = .halted h1 out → peerOk h.peer (h1, out))
  ∧ (∀ h1, h.parseOptions = .ok h1 → h1.peer = h.peer) := by
  have hack : ∀ (g : Handler), g.peer = h.peer →
      ∀ h1, g.parseOptionsAck = .ok h1 → h1.peer = h.peer := by
    intro g hg h1 hr
    unfold Handler.parseOptionsAck at hr
    cases hrec : ackLoop g g.options with
    | none => rw [hrec] at hr; cases hr
    | some r =>
        cases r with
        | mk h2 acc =>
            rw [hrec] at hr
            cases hr
            have := ackLoop_peer g.options g h2 acc hrec
            simpa [this] using hg
  have hackH : ∀ (g : Handler), g.peer = h.peer →
      ∀ h1 out, g.parseOptionsAck = .halted h1 out → peerOk h.peer (h1, out) := by
    intro g hg h1 out hr
    unfold Handler.parseOptionsAck at hr
    cases hrec : ackLoop g g.options with
    | none => rw [hrec] at hr; cases hr
    | some r =>
        cases r with
        | mk h2 acc => rw [hrec] at hr; cases hr
  constructor
  · intro h1 out hr
    unfold Handler.parseOptions at hr
    cases hl : h.options.lookup "mode" with
    | none =>
        rw [hl] at hr
        exact hackH h rfl h1 out hr
    | some m =>
        rw [hl] at hr
        dsimp only at hr
        split at hr
        · exact hackH { h with response_data := netasciiEncode h.response_data }
            rfl h1 out hr
        · split at hr
          · exact transmitError_halted_peerOk
              { h with stats := { h.stats with
                  error := some (ERR_ILLEGAL_OPERATION,
                    strBytes ("Unknown mode: " ++ pyRepr m)) } } h1 out hr
          · exact hackH h rfl h1 out hr
  · intro h1 hr
    unfold Handler.parseOptions at hr
    cases hl : h.options.lookup "mode" with
    | none =>
        rw [hl] at hr
        exact hack h rfl h1 hr
    | some m =>
        rw [hl] at hr
        dsimp only at hr
        split at hr
        · exact hack { h with response_data := netasciiEncode h.response_data }
            rfl h1 hr
        · split at hr
          · exact absurd hr (transmitError_halted_ne_ok
              { h with stats := { h.stats with
                  error := some (ERR_ILLEGAL_OPERATION,
                    strBytes ("Unknown mode: " ++ pyRepr m)) } } h1)
          · exact hack h rfl h1 hr

theorem runStart_eq_error (h : Handler) (e : Nat × List Nat)
    (he : h.stats.error = some e) :
    h.runStart
      = some ({ h.transmitError.1 with should_stop := true }, h.transmitError.2) := by
  unfold Handler.runStart
  rw [he]

theorem runStart_eq_parse (h : Handler) (he : h.stats.error = none) :
    h.runStart
      = match h.parseOptions with
        | .raised => none
        | .halted h1 out => some (h1, out)
        | .ok h1 =>
            if h1.options ≠ [] then some h1.transmitOack
            else some h1.nextBlock.transmitData := by
  unfold Handler.runStart
  rw [he]

theorem runStart_peerOk (h : Handler) (r : Handler × List Send)
    (hr : h.runStart = some r) : peerOk h.peer r := by
  cases he : h.stats.error with
  | some e =>
      rw [runStart_eq_error h e he] at hr
      obtain ⟨hp, hs⟩ := transmitError_peerOk h
      cases hr
      exact ⟨hp, hs⟩
  | none =>
      rw [runStart_eq_parse h he] at hr
      cases hpo : h.parseOptions with
      | raised => rw [hpo] at hr; cases hr
      | halted h1 out =>
          rw [hpo] at hr
          cases hr
          exact (parseOptions_peerOk h).1 h1 out hpo
      | ok h1 =>
          rw [hpo] at hr
          dsimp only at hr
          have hp1 : h1.peer = h.peer := (parseOptions_peerOk h).2 h1 hpo
          split at hr
          · cases hr
            obtain ⟨ha, hb⟩ := transmitOack_peerOk h1
            rw [hp1] at ha hb
            exact ⟨ha, hb⟩
          · cases hr
            obtain ⟨ha, hb⟩ := transmitData_peerOk h1.nextBlock
            rw [nextBlock_peer, hp1] at ha hb
            exact ⟨ha, hb⟩

/-- Claim C3: a datagram whose source differs from the bound peer stops
the session and nothing is sent to that source or anywhere; moreover
every datagram any complete session run ever emits is addressed to the
bound peer, so no DATA, OACK or ERROR ever goes to another address. -/
theorem transfer_id_binding (h : Handler) (data : List Nat) (src : Peer)
    (hsrc : src ≠ h.peer) :
    h.onNewData data src = some ({ h with should_stop := true }, [])
  ∧ (∀ events res, h.runSession events = some res → ∀ s ∈ res.2, s.2 = h.peer) := by
  constructor
  · simp [Handler.onNewData, hsrc]
  · intro events res hres
    unfold Handler.runSession at hres
    cases hst : h.runStart with
    | none => rw [hst] at hres; cases hres
    | some r1 =>
        rw [hst] at hres
        cases r1 with
        | mk h1 out =>
            dsimp only at hres
            obtain ⟨hp1, hs1⟩ := runStart_peerOk h (h1, out) hst
            cases hrec : h1.runEvents events with
            | none => rw [hrec] at hres; cases hres
            | some r2 =>
                cases r2 with
                | mk h2 out2 =>
                    rw [hrec] at hres
                    cases hres
                    obtain ⟨hp2, hs2⟩ := runEvents_peerOk events h1 (h2, out2) hrec
                    intro s hsmem
                    rcases List.mem_append.mp hsmem with hmem | hmem
                    · exact hs1 s hmem
                    · rw [hp1] at hs2
                      exact hs2 s hmem

/-- Witness for transfer_id_binding: a concrete session and an impostor
address. -/
theorem transfer_id_binding_witness :
    hBogus.onNewData [0, 4, 0, 1] ("1.2.3.4", 9999)
      = some ({ hBogus with should_stop := true }, [])
  ∧ (∀ events res, hBogus.runSession events = some res →
      ∀ s ∈ res.2, s.2 = hBogus.peer) :=
  transfer_id_binding hBogus [0, 4, 0, 1] ("1.2.3.4", 9999) (by decide)

/-! Supporting development for claim C1: across any session run the
acknowledgment counter never exceeds the packet counter, and while the
session is still running it is strictly below it (every counted ACK is
answered by a further transmission unless it was the final one). -/

def statsInv (h : Handler) : Prop :=
  h.stats.packets_acked ≤ h.stats.packets_sent
  ∧ (h.should_stop = false → h.stats.packets_acked < h.stats.packets_sent)

theorem transmitError_fst (g : Handler) : (g.transmitError).1 = g := by
  cases he : g.stats.error with
  | none => simp [Handler.transmitError, he]
  | some e => cases e with | mk c m => simp [Handler.transmitError, he]

theorem transmitData_counters (h : Handler) :
    (h.transmitData).1.stats.packets_sent = h.stats.packets_sent + 1
  ∧ (h.transmitData).1.stats.packets_acked = h.stats.packets_acked := by
  cases hc : h.current_block
  · simp [Handler.transmitData, Handler.transmitOack, hc]
  · simp only [Handler.transmitData, hc]
    split <;> simp

theorem handleAck_statsInv (h : Handler) (n : Nat)
    (hstop : h.should_stop = false) (hinv : statsInv h) :
    statsInv (h.handleAck n).1 := by
  unfold Handler.handleAck
  split
  · exact hinv
  · dsimp only
    split
    · refine ⟨?_, fun hc => by simp at hc⟩
      have := hinv.2 hstop
      show h.stats.packets_acked + 1 ≤ h.stats.packets_sent
      omega
    · obtain ⟨hsent, hacked⟩ := transmitData_counters
        ({ h with
            retransmits := 0
            stats := { h.stats with
              packets_acked := h.stats.packets_acked + 1 } }.nextBlock)
      have hstrict := hinv.2 hstop
      constructor
      · rw [hacked, hsent]
        show h.stats.packets_acked + 1 ≤ h.stats.packets_sent + 1
        omega
      · intro hc
        rw [hacked, hsent]
        show h.stats.packets_acked + 1 < h.stats.packets_sent + 1
        omega

theorem handleTimeout_statsInv (h : Handler) (hinv : statsInv h) :
    statsInv (h.handleTimeout).1 := by
  unfold Handler.handleTimeout
  split
  · cases htd : h.transmitData with
    | mk h1 out =>
        obtain ⟨hsent, hacked⟩ := transmitData_counters h
        rw [htd] at hsent hacked
        dsimp only at hsent hacked ⊢
        have := hinv.1
        exact ⟨by rw [hacked, hsent]; omega, fun hc => by rw [hacked, hsent]; omega⟩
  · exact ⟨hinv.1, fun hc => by simp at hc⟩

theorem onNewData_statsInv (h : Handler) (data : List Nat) (src : Peer)
    (r : Handler × List Send) (hstop : h.should_stop = false) (hinv : statsInv h)
    (hr : h.onNewData data src = some r) : statsInv r.1 := by
  unfold Handler.onNewData at hr
  split at hr
  · cases hr
    exact ⟨hinv.1, fun hc => by simp at hc⟩
  · split at hr
    · cases hr
    · dsimp only at hr
      split at hr
      · cases hr
        dsimp only
        rw [transmitError_fst]
        exact ⟨hinv.1, fun hc => by simp at hc⟩
      · split at hr
        · cases hr
          dsimp only
          rw [transmitError_fst]
          exact ⟨hinv.1, fun hc => by simp at hc⟩
        · cases hr
          exact handleAck_statsInv h _ hstop hinv

theorem step_statsInv (h : Handler) (e : Event) (r : Handler × List Send)
    (hstop : h.should_stop = false) (hinv : statsInv h)
    (hr : h.step e = some r) : statsInv r.1 := by
  cases e with
  | recv data src => exact onNewData_statsInv h data src r hstop hinv hr
  | timedOut =>
      cases hr
      exact handleTimeout_statsInv h hinv

theorem runEvents_statsInv (events : List Event) :
    ∀ (h : Handler) (r : Handler × List Send), statsInv h →
      h.runEvents events = some r → statsInv r.1 := by
  induction events with
  | nil =>
      intro h r hinv hr
      cases hr
      exact hinv
  | cons e es ih =>
      intro h r hinv hr
      unfold Handler.runEvents at hr
      split at hr
      · cases hr; exact hinv
      · rename_i hns
        have hstop : h.should_stop = false := by
          cases hv : h.should_stop
          · rfl
          · exact absurd hv hns
        cases hstep : h.step e with
        | none => rw [hstep] at hr; cases hr
        | some r1 =>
            rw [hstep] at hr
            cases r1 with
            | mk h1 out =>
                dsimp only at hr
                have hinv1 := step_statsInv h e (h1, out) hstop hinv hstep
                cases hrec : h1.runEvents es with
                | none => rw [hrec] at hr; cases hr
                | some r2 =>
                    cases r2 with
                    | mk h2 out2 =>
                        rw [hrec] at hr
                        cases hr
                        exact ih h1 (h2, out2) hinv1 hrec

theorem ackLoop_stats : ∀ (l : List (String × String)) (h h1 : Handler)
    (acc : List (String × String)), ackLoop h l = some (h1, acc) →
    h1.stats = h.stats ∧ h1.should_stop = h.should_stop := by
  intro l
  induction l with
  | nil =>
      intro h h1 acc hr
      cases hr
      exact ⟨rfl, rfl⟩
  | cons kv rest ih =>
      intro h h1 acc hr
      cases kv with
      | mk k v =>
          unfold ackLoop at hr
          split at hr
          · cases hpi : pyInt? v with
            | none => rw [hpi] at hr; cases hr
            | some n =>
                rw [hpi] at hr
                dsimp only at hr
                cases hrec : ackLoop { h with block_size := n } rest with
                | none => rw [hrec] at hr; cases hr
                | some r =>
                    cases r with
                    | mk h2 acc2 =>
                        rw [hrec] at hr
                        cases hr
                        have hp := ih _ _ _ hrec
                        exact hp
          · split at hr
            · cases hrec : ackLoop h rest with
              | none => rw [hrec] at hr; cases hr
              | some r =>
                  cases r with
                  | mk h2 acc2 =>
                      rw [hrec] at hr
                      cases hr
                      have hp := ih _ _ _ hrec
                      exact hp
            · split at hr
              · cases hpi : pyInt? v with
                | none => rw [hpi] at hr; cases hr
                | some n =>
                    rw [hpi] at hr
                    dsimp only at hr
                    cases hrec : ackLoop { h with timeout := n } rest with
                    | none => rw [hrec] at hr; cases hr
                    | some r =>
                        cases r with
                        | mk h2 acc2 =>
                            rw [hrec] at hr
                            cases hr
                            have hp := ih _ _ _ hrec
                            exact hp
              · have hp := ih _ _ _ hr
                exact hp

theorem parseOptions_counters (h : Handler) :
    (∀ h1 out, h.parseOptions = .halted h1 out →
        h1.stats.packets_acked = h.stats.packets_acked
      ∧ h1.stats.packets_sent = h.stats.packets_sent
      ∧ h1.should_stop = true)
  ∧ (∀ h1, h.parseOptions = .ok h1 →
        h1.stats.packets_acked = h.stats.packets_acked
      ∧ h1.stats.packets_sent = h.stats.packets_sent
      ∧ h1.should_stop = h.should_stop) := by
  have hack : ∀ (g : Handler),
      g.stats.packets_acked = h.stats.packets_acked →
      g.stats.packets_sent = h.stats.packets_sent →
      g.should_stop = h.should_stop →
      ∀ h1, g.parseOptionsAck = .ok h1 →
        h1.stats.packets_acked = h.stats.packets_acked
      ∧ h1.stats.packets_sent = h.stats.packets_sent
      ∧ h1.should_stop = h.should_stop := by
    intro g hga hgs hgstop h1 hr
    unfold Handler.parseOptionsAck at hr
    cases hrec : ackLoop g g.options with
    | none => rw [hrec] at hr; cases hr
    | some r =>
        cases r with
        | mk h2 acc =>
            rw [hrec] at hr
            cases hr
            obtain ⟨hs2, hstop2⟩ := ackLoop_stats g.options g h2 acc hrec
            refine ⟨?_, ?_, ?_⟩
            · show h2.stats.packets_acked = h.stats.packets_acked
              rw [hs2]; exact hga
            · show h2.stats.packets_sent = h.stats.packets_sent
              rw [hs2]; exact hgs
            · show h2.should_stop = h.should_stop
              rw [hstop2]; exact hgstop
  have hackH : ∀ (g : Handler),
      ∀ h1 out, g.parseOptionsAck = .halted h1 out → False := by
    intro g h1 out hr
    unfold Handler.parseOptionsAck at hr
    cases hrec : ackLoop g g.options with
    | none => rw [hrec] at hr; cases hr
    | some r =>
        cases r with
        | mk h2 acc => rw [hrec] at hr; cases hr
  constructor
  · intro h1 out hr
    unfold Handler.parseOptions at hr
    cases hl : h.options.lookup "mode" with
    | none =>
        rw [hl] at hr
        exact absurd hr (fun hx => hackH h h1 out hx)
    | some m =>
        rw [hl] at hr
        dsimp only at hr
        split at hr
        · exact absurd hr (fun hx => hackH _ h1 out hx)
        · split at hr
          · rw [transmitError_fst] at hr
            cases hr
            exact ⟨rfl, rfl, rfl⟩
          · exact absurd hr (fun hx => hackH h h1 out hx)
  · intro h1 hr
    unfold Handler.parseOptions at hr
    cases hl : h.options.lookup "mode" with
    | none =>
        rw [hl] at hr
        exact hack h rfl rfl rfl h1 hr
    | some m =>
        rw [hl] at hr
        dsimp only at hr
        split at hr
        · exact hack { h with response_data := netasciiEncode h.response_data }
            rfl rfl rfl h1 hr
        · split at hr
          · rw [transmitError_fst] at hr
            cases hr
          · exact hack h rfl rfl rfl h1 hr

theorem runStart_statsInv (h : Handler) (r : Handler × List Send)
    (_hstop : h.should_stop = false)
    (ha : h.stats.packets_acked = 0) (hs : h.stats.packets_sent = 0)
    (hr : h.runStart = some r) : statsInv r.1 := by
  cases he : h.stats.error with
  | some e =>
      rw [runStart_eq_error h e he] at hr
      cases hr
      dsimp only
      rw [transmitError_fst]
      refine ⟨?_, fun hc => by simp at hc⟩
      show h.stats.packets_acked ≤ h.stats.packets_sent
      omega
  | none =>
      rw [runStart_eq_parse h he] at hr
      cases hpo : h.parseOptions with
      | raised => rw [hpo] at hr; cases hr
      | halted h1 out =>
          rw [hpo] at hr
          cases hr
          obtain ⟨c1, c2, c3⟩ := (parseOptions_counters h).1 h1 out hpo
          refine ⟨by rw [c1, c2, ha, hs], fun hc => ?_⟩
          rw [c3] at hc
          simp at hc
      | ok h1 =>
          rw [hpo] at hr
          dsimp only at hr
          obtain ⟨c1, c2, c3⟩ := (parseOptions_counters h).2 h1 hpo
          split at hr
          · cases hr
            refine ⟨?_, fun hc => ?_⟩
            · show h1.stats.packets_acked ≤ h1.stats.packets_sent + 1
              omega
            · show h1.stats.packets_acked < h1.stats.packets_sent + 1
              omega
          · cases hr
            obtain ⟨hsent, hacked⟩ := transmitData_counters h1.nextBlock
            have hnba : h1.nextBlock.stats.packets_acked
                = h1.stats.packets_acked := rfl
            have hnbs : h1.nextBlock.stats.packets_sent
                = h1.stats.packets_sent := rfl
            refine ⟨?_, fun hc => ?_⟩
            · rw [hacked, hsent, hnba, hnbs]; omega
            · rw [hacked, hsent, hnba, hnbs]; omega

/-- Claim C1, first half, as a supporting fact: across every complete or
partial run of a session built on a fresh handler, packets_acked never
exceeds packets_sent. -/
theorem session_stats_monotone (p : Peer) (dt rt : Nat)
    (opts : List (String × String)) (src : List Nat) (events : List Event)
    (r : Handler × List Send)
    (hr : (mkHandler p dt rt opts src).runSession events = some r) :
    r.1.stats.packets_acked ≤ r.1.stats.packets_sent := by
  unfold Handler.runSession at hr
  cases hst : (mkHandler p dt rt opts src).runStart with
  | none => rw [hst] at hr; cases hr
  | some r1 =>
      rw [hst] at hr
      cases r1 with
      | mk h1 out =>
          dsimp only at hr
          have hinv1 := runStart_statsInv (mkHandler p dt rt opts src)
            (h1, out) rfl rfl rfl hst
          cases hrec : h1.runEvents events with
          | none => rw [hrec] at hr; cases hr
          | some r2 =>
              cases r2 with
              | mk h2 out2 =>
                  rw [hrec] at hr
                  cases hr
                  exact (runEvents_statsInv events h1 (h2, out2) hinv1 hrec).1

/-! Claim C1.  A complete successful session: a 5 byte file served with
no options beyond mode octet fits one short DATA block; the peer
acknowledges it and the session stops with an empty error record. -/

def c1Session : Handler :=
  mkHandler ("127.0.0.1", 5678) 10 2 [("mode", "octet")] (strBytes "bacon")

def c1Final : Handler :=
  { timeout := 10, retries := 2, block_size := 512, last_block_sent := 1
    retransmits := 0, global_retransmits := 0
    current_block := some [98, 97, 99, 111, 110]
    should_stop := true, waiting_last_ack := true
    options := [], response_data := []
    peer := ("127.0.0.1", 5678)
    stats := { error := none, packets_sent := 1, packets_acked := 1
               bytes_sent := 5, retransmits := 0, blksize := 512, options := [] } }

/-- Claim C1, evaluation at the failing input: the session serves the
single short DATA block, the final ACK is counted before the
waiting-last-ack check stops the loop, and the session completes
successfully (empty error record) with packets_acked equal to
packets_sent, not packets_sent minus one as the claim and the assertion
of the repository tests demand. -/
theorem session_final_ack_counted :
    c1Session.runSession [Event.recv [0, 4, 0, 1] ("127.0.0.1", 5678)]
      = some (c1Final, [([0, 3, 0, 1, 98, 97, 99, 111, 110], ("127.0.0.1", 5678))])
  ∧ c1Final.should_stop = true
  ∧ c1Final.stats.error = none
  ∧ c1Final.stats.packets_sent = 1
  ∧ c1Final.stats.packets_acked = 1
  ∧ c1Final.stats.packets_acked ≠ c1Final.stats.packets_sent - 1 := by decide

end Fbtftp
